import Mathlib

/-!
# Verification of the cell-coordinate selection algebra (`src/object.rs`)

This file gives a shallow embedding of the selector catalog of the
repository's `object.rs` and proves (or refutes) the specification's
claims about it.  Machine integers (`usize`) are modelled by `Nat`;
Rust's `a..b` iteration is `List.range' a (b - a)` with truncated
subtraction (matching the fact that an empty Rust range iterates
nothing); a `panic!`/`unreachable!` is modelled by `Option.none`, so a
function that can panic returns `Option _` and total code returns
`some _`.
-/

/-- Rust's `std::ops::Bound<&usize>`: one endpoint of a range. -/
inductive Bnd where
  | included (x : Nat)
  | excluded (x : Nat)
  | unbounded
deriving DecidableEq, Repr

/-- Embedding of `bounds_to_usize` (`object.rs:442-460`).  The
`unreachable!("A start bound can't be excluded")` arm is modelled by
`none`; every other arm returns `some` of exactly the pair the source
computes.  The match arms are in the source's order. -/
def bounds_to_usize : Bnd → Bnd → Nat → Option (Nat × Nat)
  | .included x, .included y, _ => some (x, y + 1)
  | .included x, .excluded y, _ => some (x, y)
  | .included x, .unbounded, n => some (x, n)
  | .unbounded, .unbounded, n => some (0, n)
  | .unbounded, .included y, _ => some (0, y + 1)
  | .unbounded, .excluded y, _ => some (0, y)
  | .excluded _, _, _ => none

/-- Strict lexicographic order on coordinate pairs, as Rust's derived
`Ord` on `(usize, usize)` compares them (first component, then second). -/
def pairLt (a b : Nat × Nat) : Bool :=
  a.1 < b.1 || (a.1 == b.1 && a.2 < b.2)

/-- Insertion into a strictly-sorted duplicate-free list, the ordered-set
behaviour of `BTreeSet<(usize, usize)>`: inserting an element already
present leaves the list unchanged. -/
def insertSorted (x : Nat × Nat) : List (Nat × Nat) → List (Nat × Nat)
  | [] => [x]
  | y :: ys =>
    if pairLt x y then x :: y :: ys
    else if x = y then y :: ys
    else y :: insertSorted x ys

/-- Embedding of `combine_cells` (`object.rs:428-434`): chain both lists
into a `BTreeSet` and read it back out, i.e. fold every element into an
ordered duplicate-free list. -/
def combine_cells (lhs rhs : List (Nat × Nat)) : List (Nat × Nat) :=
  (lhs ++ rhs).foldl (fun acc x => insertSorted x acc) []

/-- Embedding of `remove_cells` (`object.rs:437-439`): keep the elements
of `lhs` that `rhs` does not contain, in order. -/
def remove_cells (lhs rhs : List (Nat × Nat)) : List (Nat × Nat) :=
  lhs.filter (fun l => !(rhs.contains l))

/-- The selector catalog of `object.rs` as one inductive type.  The
range-based selectors (`Segment`, `Rows`, `Columns`) carry their two
`Bound` endpoints; `Combination` is split into its two instantiations
`and` (combinator `combine_cells`) and `not` (combinator
`remove_cells`).  `Full` is omitted: it is literally
`Segment::new(.., ..)`. -/
inductive Obj where
  | segment (rowStart rowEnd colStart colEnd : Bnd)
  | frame
  | firstRow
  | lastRow
  | row (index : Nat)
  | lastRowOffset (offset : Nat)
  | rows (rangeStart rangeEnd : Bnd)
  | columns (rangeStart rangeEnd : Bnd)
  | firstColumn
  | lastColumn
  | column (index : Nat)
  | lastColumnOffset (offset : Nat)
  | cell (r c : Nat)
  | and (lhs rhs : Obj)
  | not (lhs rhs : Obj)
deriving DecidableEq, Repr

/-- `Object::cells(count_rows, count_columns)` for every selector in the
catalog, one equation per `impl Object for _` block of `object.rs`.
`none` propagates a panic of `bounds_to_usize` (only reachable through a
range whose start bound is excluded). -/
def Obj.cells : Obj → Nat → Nat → Option (List (Nat × Nat))
  | .segment rs re cs ce, cr, cc => do
      let (rowsStart, rowsEnd) ← bounds_to_usize rs re cr
      let (colsStart, colsEnd) ← bounds_to_usize cs ce cc
      pure ((List.range' rowsStart (rowsEnd - rowsStart)).flatMap
        (fun r => (List.range' colsStart (colsEnd - colsStart)).map (fun c => (r, c))))
  | .frame, cr, cc =>
      some ((if 0 < cr then
               (List.range cc).map (fun c => ((0 : Nat), c)) ++
               (List.range cc).map (fun c => (cr - 1, c))
             else []) ++
            (if 0 < cc then
               (List.range cr).map (fun r => (r, (0 : Nat))) ++
               (List.range cr).map (fun r => (r, cc - 1))
             else []))
  | .firstRow, _, cc => some ((List.range cc).map (fun c => ((0 : Nat), c)))
  | .lastRow, cr, cc =>
      let r := if cr = 0 then 0 else cr - 1
      some ((List.range cc).map (fun c => (r, c)))
  | .row i, cr, cc =>
      some (if cr ≤ i then [] else (List.range cc).map (fun c => (i, c)))
  | .lastRowOffset off, cr, cc =>
      let r := if cr = 0 then 0 else cr - 1
      some (if r < off then [] else (List.range cc).map (fun c => (r - off, c)))
  | .rows s e, cr, cc => do
      let (x, y) ← bounds_to_usize s e cr
      pure (((List.range' x (y - x)).map
        (fun r => (List.range cc).map (fun c => (r, c)))).flatten)
  | .columns s e, cr, cc => do
      let (x, y) ← bounds_to_usize s e cc
      pure (((List.range' x (y - x)).map
        (fun c => (List.range cr).map (fun r => (r, c)))).flatten)
  | .firstColumn, cr, _ => some ((List.range cr).map (fun r => (r, (0 : Nat))))
  | .lastColumn, cr, cc =>
      let c := cc - 1
      some ((List.range cr).map (fun r => (r, c)))
  | .column j, cr, cc =>
      some (if cc ≤ j then [] else (List.range cr).map (fun r => (r, j)))
  | .lastColumnOffset off, cr, cc =>
      let c := cc - 1
      some (if c < off then [] else (List.range cr).map (fun r => (r, c - off)))
  | .cell r c, _, _ => some [(r, c)]
  | .and l r, cr, cc => do
      let ll ← l.cells cr cc
      let rl ← r.cells cr cc
      pure (combine_cells ll rl)
  | .not l r, cr, cc => do
      let ll ← l.cells cr cc
      let rl ← r.cells cr cc
      pure (remove_cells ll rl)

/-- A start bound that does not trip the resolver's `unreachable!`. -/
def startOk : Bnd → Bool
  | .excluded _ => false
  | _ => true

/-- A selector all of whose range start bounds are valid (the spec's
data-model invariant "a range's start endpoint is never excluded"). -/
def validObj : Obj → Bool
  | .segment rs _ cs _ => startOk rs && startOk cs
  | .rows s _ => startOk s
  | .columns s _ => startOk s
  | .and l r => validObj l && validObj r
  | .not l r => validObj l && validObj r
  | _ => true

/-- A selector made only of `Frame`, `Row`, `Column`, unions of such, and
differences whose left child is such: the fragment of the catalog whose
output provably stays inside the extent. -/
def safeObj : Obj → Bool
  | .frame => true
  | .row _ => true
  | .column _ => true
  | .and l r => safeObj l && safeObj r
  | .not l _ => safeObj l
  | _ => false

/-- Every coordinate of `l` lies strictly inside the extent
`(cr, cc)`. -/
def InBounds (cr cc : Nat) (l : List (Nat × Nat)) : Prop :=
  ∀ p ∈ l, p.1 < cr ∧ p.2 < cc

instance (cr cc : Nat) (l : List (Nat × Nat)) : Decidable (InBounds cr cc l) :=
  inferInstanceAs (Decidable (∀ p ∈ l, _ ∧ _))

/-- The list is strictly increasing in the lexicographic pair order:
the iteration order of a `BTreeSet<(usize, usize)>`. -/
def Ascending (l : List (Nat × Nat)) : Prop :=
  List.Chain' (fun a b => pairLt a b = true) l

instance (l : List (Nat × Nat)) : Decidable (Ascending l) :=
  inferInstanceAs (Decidable (List.Chain' _ l))

theorem pairLt_iff (a b : Nat × Nat) :
    pairLt a b = true ↔ a.1 < b.1 ∨ (a.1 = b.1 ∧ a.2 < b.2) := by
  simp [pairLt]

theorem pairLt_irrefl (a : Nat × Nat) : pairLt a a = false := by
  simp [pairLt]

theorem pairLt_trans {a b c : Nat × Nat}
    (h1 : pairLt a b = true) (h2 : pairLt b c = true) : pairLt a c = true := by
  rw [pairLt_iff] at *
  omega

theorem pairLt_total {a b : Nat × Nat}
    (h1 : ¬ pairLt a b = true) (h2 : a ≠ b) : pairLt b a = true := by
  rw [pairLt_iff] at h1 ⊢
  rw [Ne, Prod.ext_iff] at h2
  omega

theorem pairLt_ne {a b : Nat × Nat} (h : pairLt a b = true) : a ≠ b := by
  intro he
  subst he
  rw [pairLt_irrefl] at h
  exact Bool.noConfusion h

theorem mem_insertSorted (x z : Nat × Nat) (l : List (Nat × Nat)) :
    z ∈ insertSorted x l ↔ z = x ∨ z ∈ l := by
  induction l with
  | nil => simp [insertSorted]
  | cons y ys ih =>
    rw [insertSorted]
    by_cases h1 : pairLt x y = true
    · rw [if_pos h1]
      exact List.mem_cons
    · rw [if_neg h1]
      by_cases h2 : x = y
      · rw [if_pos h2]
        subst h2
        simp only [List.mem_cons]
        tauto
      · rw [if_neg h2]
        simp only [List.mem_cons, ih]
        tauto

theorem insertSorted_head (x : Nat × Nat) (l : List (Nat × Nat)) :
    (insertSorted x l).head? = some x ∨ (insertSorted x l).head? = l.head? := by
  cases l with
  | nil => left; rfl
  | cons y ys =>
    rw [insertSorted]
    by_cases h1 : pairLt x y = true
    · rw [if_pos h1]; left; rfl
    · rw [if_neg h1]
      by_cases h2 : x = y
      · rw [if_pos h2]; right; rfl
      · rw [if_neg h2]; right; rfl

theorem ascending_insertSorted (x : Nat × Nat) : ∀ l : List (Nat × Nat),
    Ascending l → Ascending (insertSorted x l) := by
  intro l
  induction l with
  | nil =>
    intro _
    simp [insertSorted, Ascending]
  | cons y ys ih =>
    intro h
    rw [Ascending, List.chain'_cons'] at h
    obtain ⟨hy, hys⟩ := h
    rw [Ascending, insertSorted]
    by_cases h1 : pairLt x y = true
    · rw [if_pos h1, List.chain'_cons']
      refine ⟨?_, ?_⟩
      · intro z hz
        simp only [List.head?_cons, Option.mem_def, Option.some.injEq] at hz
        subst hz
        exact h1
      · rw [List.chain'_cons']
        exact ⟨hy, hys⟩
    · rw [if_neg h1]
      by_cases h2 : x = y
      · rw [if_pos h2, List.chain'_cons']
        exact ⟨hy, hys⟩
      · rw [if_neg h2, List.chain'_cons']
        refine ⟨?_, ih hys⟩
        intro z hz
        rcases insertSorted_head x ys with hh | hh
        · rw [hh] at hz
          simp only [Option.mem_def, Option.some.injEq] at hz
          subst hz
          exact pairLt_total h1 h2
        · rw [hh] at hz
          exact hy z hz

theorem ascending_foldl (l : List (Nat × Nat)) : ∀ acc : List (Nat × Nat),
    Ascending acc → Ascending (l.foldl (fun a x => insertSorted x a) acc) := by
  induction l with
  | nil => intro acc h; exact h
  | cons z zs ih => intro acc h; exact ih _ (ascending_insertSorted z acc h)

theorem mem_foldl_insertSorted (l acc : List (Nat × Nat)) (z : Nat × Nat) :
    z ∈ l.foldl (fun a x => insertSorted x a) acc ↔ z ∈ acc ∨ z ∈ l := by
  induction l generalizing acc with
  | nil => simp
  | cons w ws ih =>
    simp only [List.foldl_cons, ih, mem_insertSorted, List.mem_cons]
    tauto

theorem combine_cells_ascending (lhs rhs : List (Nat × Nat)) :
    Ascending (combine_cells lhs rhs) := by
  unfold combine_cells
  exact ascending_foldl _ _ (by simp [Ascending])

theorem mem_combine_cells (lhs rhs : List (Nat × Nat)) (z : Nat × Nat) :
    z ∈ combine_cells lhs rhs ↔ z ∈ lhs ∨ z ∈ rhs := by
  unfold combine_cells
  rw [mem_foldl_insertSorted]
  simp

instance : IsTrans (Nat × Nat) (fun a b => pairLt a b = true) :=
  ⟨fun _ _ _ h1 h2 => pairLt_trans h1 h2⟩

theorem Ascending.nodup {l : List (Nat × Nat)} (h : Ascending l) : l.Nodup := by
  have hp : List.Pairwise (fun a b => pairLt a b = true) l := by
    rw [Ascending] at h
    exact List.chain'_iff_pairwise.mp h
  exact hp.imp (fun hab => pairLt_ne hab)

theorem bounds_isSome (s e : Bnd) (n : Nat) (h : startOk s = true) :
    (bounds_to_usize s e n).isSome := by
  cases s <;> cases e <;> simp_all [bounds_to_usize, startOk]

theorem cells_isSome (o : Obj) : ∀ cr cc : Nat, validObj o = true →
    (o.cells cr cc).isSome := by
  induction o with
  | segment rs re cs ce =>
    intro cr cc h
    simp only [validObj, Bool.and_eq_true] at h
    obtain ⟨p, hp⟩ := Option.isSome_iff_exists.mp (bounds_isSome rs re cr h.1)
    obtain ⟨q, hq⟩ := Option.isSome_iff_exists.mp (bounds_isSome cs ce cc h.2)
    simp [Obj.cells, hp, hq]
  | frame => intro cr cc _; simp [Obj.cells]
  | firstRow => intro cr cc _; simp [Obj.cells]
  | lastRow => intro cr cc _; simp [Obj.cells]
  | row i => intro cr cc _; simp [Obj.cells]
  | lastRowOffset k => intro cr cc _; simp [Obj.cells]
  | rows s e =>
    intro cr cc h
    simp only [validObj] at h
    obtain ⟨p, hp⟩ := Option.isSome_iff_exists.mp (bounds_isSome s e cr h)
    simp [Obj.cells, hp]
  | columns s e =>
    intro cr cc h
    simp only [validObj] at h
    obtain ⟨p, hp⟩ := Option.isSome_iff_exists.mp (bounds_isSome s e cc h)
    simp [Obj.cells, hp]
  | firstColumn => intro cr cc _; simp [Obj.cells]
  | lastColumn => intro cr cc _; simp [Obj.cells]
  | column j => intro cr cc _; simp [Obj.cells]
  | lastColumnOffset k => intro cr cc _; simp [Obj.cells]
  | cell r c => intro cr cc _; simp [Obj.cells]
  | and l r ihl ihr =>
    intro cr cc h
    simp only [validObj, Bool.and_eq_true] at h
    obtain ⟨lv, hl⟩ := Option.isSome_iff_exists.mp (ihl cr cc h.1)
    obtain ⟨rv, hr⟩ := Option.isSome_iff_exists.mp (ihr cr cc h.2)
    simp [Obj.cells, hl, hr]
  | not l r ihl ihr =>
    intro cr cc h
    simp only [validObj, Bool.and_eq_true] at h
    obtain ⟨lv, hl⟩ := Option.isSome_iff_exists.mp (ihl cr cc h.1)
    obtain ⟨rv, hr⟩ := Option.isSome_iff_exists.mp (ihr cr cc h.2)
    simp [Obj.cells, hl, hr]

theorem flatten_map_nil {α β : Type} (l : List α) :
    (l.map (fun _ => ([] : List β))).flatten = [] := by
  induction l with
  | nil => rfl
  | cons x xs ih => simp [ih]

theorem inBounds_nil (cr cc : Nat) : InBounds cr cc [] := by
  intro p hp
  cases hp

theorem InBounds.append {cr cc : Nat} {l1 l2 : List (Nat × Nat)}
    (h1 : InBounds cr cc l1) (h2 : InBounds cr cc l2) :
    InBounds cr cc (l1 ++ l2) := by
  intro p hp
  rcases List.mem_append.mp hp with h | h
  · exact h1 p h
  · exact h2 p h

theorem inBounds_row_list (i cr cc : Nat) (h : i < cr) :
    InBounds cr cc ((List.range cc).map (fun c => (i, c))) := by
  intro p hp
  rw [List.mem_map] at hp
  obtain ⟨a, ha, he⟩ := hp
  rw [List.mem_range] at ha
  subst he
  exact ⟨h, ha⟩

theorem inBounds_col_list (j cr cc : Nat) (h : j < cc) :
    InBounds cr cc ((List.range cr).map (fun r => (r, j))) := by
  intro p hp
  rw [List.mem_map] at hp
  obtain ⟨a, ha, he⟩ := hp
  rw [List.mem_range] at ha
  subst he
  exact ⟨ha, h⟩

/-- C1: the bound resolver realises exactly the spec's resolution table
on the six valid endpoint shapes, with no clamping of `x` or `y`
against `n` in the bounded cases. -/
theorem bounds_to_usize_resolution_table :
    (∀ x y n, bounds_to_usize (.included x) (.included y) n = some (x, y + 1)) ∧
    (∀ x y n, bounds_to_usize (.included x) (.excluded y) n = some (x, y)) ∧
    (∀ x n, bounds_to_usize (.included x) .unbounded n = some (x, n)) ∧
    (∀ n, bounds_to_usize .unbounded .unbounded n = some (0, n)) ∧
    (∀ y n, bounds_to_usize .unbounded (.included y) n = some (0, y + 1)) ∧
    (∀ y n, bounds_to_usize .unbounded (.excluded y) n = some (0, y)) :=
  ⟨fun _ _ _ => rfl, fun _ _ _ => rfl, fun _ _ => rfl,
   fun _ => rfl, fun _ _ => rfl, fun _ _ => rfl⟩

/-- C5: on every input whose start endpoint is excluded the resolver
produces no value at all — the source hits `unreachable!` (modelled by
`none`), an unrecoverable termination, never a typed error value. -/
theorem bounds_to_usize_excluded_start_panics :
    ∀ x right n, bounds_to_usize (.excluded x) right n = none := by
  intro x right n
  cases right <;> rfl

/-- C2 counterexample: `FirstColumn` is in the catalog and is not the
single-cell selector, yet `FirstColumn::cells(1, 0)` emits `(0, 0)`,
whose column `0` is not `< count_columns = 0` (the repository's own
test asserts this very output under an `is this correct?` comment). -/
theorem firstColumn_out_of_bounds :
    Obj.cells Obj.firstColumn 1 0 = some [(0, 0)] ∧ ¬ ((0 : Nat) < 0) :=
  ⟨rfl, by decide⟩

/-- C2 (amended): the in-bounds guarantee `row < count_rows ∧
column < count_columns` holds for `Frame`, `Row`, `Column`, unions of
such selectors and differences whose left child is such (`safeObj`);
it does not hold for the whole catalog: the first/last selectors emit
index `0` against a zero extent in their own dimension, and
`Segment`/`Rows`/`Columns` do not clamp bounded ranges to the extent. -/
theorem safe_cells_in_bounds (o : Obj) (cr cc : Nat) :
    ∀ l : List (Nat × Nat), safeObj o = true → o.cells cr cc = some l →
      InBounds cr cc l := by
  induction o with
  | segment rs re cs ce => intro l hs _; simp [safeObj] at hs
  | frame =>
    intro l _ hc
    simp only [Obj.cells, Option.some.injEq] at hc
    subst hc
    refine InBounds.append ?_ ?_
    · by_cases hr : 0 < cr
      · rw [if_pos hr]
        exact InBounds.append (inBounds_row_list 0 cr cc hr)
          (inBounds_row_list (cr - 1) cr cc (by omega))
      · rw [if_neg hr]
        exact inBounds_nil cr cc
    · by_cases hco : 0 < cc
      · rw [if_pos hco]
        exact InBounds.append (inBounds_col_list 0 cr cc hco)
          (inBounds_col_list (cc - 1) cr cc (by omega))
      · rw [if_neg hco]
        exact inBounds_nil cr cc
  | firstRow => intro l hs _; simp [safeObj] at hs
  | lastRow => intro l hs _; simp [safeObj] at hs
  | row i =>
    intro l _ hc
    simp only [Obj.cells, Option.some.injEq] at hc
    subst hc
    by_cases h : cr ≤ i
    · rw [if_pos h]
      exact inBounds_nil cr cc
    · rw [if_neg h]
      exact inBounds_row_list i cr cc (by omega)
  | lastRowOffset k => intro l hs _; simp [safeObj] at hs
  | rows s e => intro l hs _; simp [safeObj] at hs
  | columns s e => intro l hs _; simp [safeObj] at hs
  | firstColumn => intro l hs _; simp [safeObj] at hs
  | lastColumn => intro l hs _; simp [safeObj] at hs
  | column j =>
    intro l _ hc
    simp only [Obj.cells, Option.some.injEq] at hc
    subst hc
    by_cases h : cc ≤ j
    · rw [if_pos h]
      exact inBounds_nil cr cc
    · rw [if_neg h]
      exact inBounds_col_list j cr cc (by omega)
  | lastColumnOffset k => intro l hs _; simp [safeObj] at hs
  | cell r c => intro l hs _; simp [safeObj] at hs
  | and A B ihA ihB =>
    intro l hs hc
    simp only [safeObj, Bool.and_eq_true] at hs
    simp only [Obj.cells] at hc
    cases hA : A.cells cr cc with
    | none => rw [hA] at hc; simp at hc
    | some ll =>
      cases hB : B.cells cr cc with
      | none => rw [hA, hB] at hc; simp at hc
      | some rl =>
        rw [hA, hB] at hc
        simp at hc
        subst hc
        intro p hp
        rcases (mem_combine_cells ll rl p).mp hp with h | h
        · exact ihA ll hs.1 hA p h
        · exact ihB rl hs.2 hB p h
  | not A B ihA ihB =>
    intro l hs hc
    simp only [safeObj] at hs
    simp only [Obj.cells] at hc
    cases hA : A.cells cr cc with
    | none => rw [hA] at hc; simp at hc
    | some ll =>
      cases hB : B.cells cr cc with
      | none => rw [hA, hB] at hc; simp at hc
      | some rl =>
        rw [hA, hB] at hc
        simp at hc
        subst hc
        intro p hp
        exact ihA ll hs hA p (List.mem_filter.mp hp).1

/-- Witness for C2's amended theorem at `Row{index: 0}` on a 3×2 grid. -/
theorem safe_cells_in_bounds_witness :
    InBounds 3 2 [((0 : Nat), (0 : Nat)), (0, 1)] :=
  safe_cells_in_bounds (Obj.row 0) 3 2 [(0, 0), (0, 1)] rfl rfl

/-- C3: the union combinator `A.and(B)` returns exactly the
duplicate-free union of the two children's outputs, ordered strictly
ascending in the lexicographic (row, column) order: the output is an
ascending chain (hence duplicate-free) whose members are exactly the
members of either child's output. -/
theorem and_cells_sorted_union (A B : Obj) (cr cc : Nat)
    (la lb u : List (Nat × Nat))
    (hA : A.cells cr cc = some la) (hB : B.cells cr cc = some lb)
    (hu : (Obj.and A B).cells cr cc = some u) :
    Ascending u ∧ u.Nodup ∧ ∀ z : Nat × Nat, z ∈ u ↔ z ∈ la ∨ z ∈ lb := by
  simp only [Obj.cells] at hu
  rw [hA, hB] at hu
  simp at hu
  subst hu
  exact ⟨combine_cells_ascending la lb, (combine_cells_ascending la lb).nodup,
    fun z => mem_combine_cells la lb z⟩

/-- Witness for C3 at `Cell(0,0).and(Cell(1,2))` on a 2×3 grid
(mirroring the repository's `object_and_test`). -/
theorem and_cells_sorted_union_witness :
    Ascending [((0 : Nat), (0 : Nat)), (1, 2)] ∧
      (((1 : Nat), (2 : Nat)) ∈ [((0 : Nat), (0 : Nat)), (1, 2)] ↔
        ((1 : Nat), (2 : Nat)) ∈ [((0 : Nat), (0 : Nat))] ∨
          ((1 : Nat), (2 : Nat)) ∈ [((1 : Nat), (2 : Nat))]) :=
  ⟨(and_cells_sorted_union (.cell 0 0) (.cell 1 2) 2 3
      [(0, 0)] [(1, 2)] [(0, 0), (1, 2)] rfl rfl rfl).1,
   (and_cells_sorted_union (.cell 0 0) (.cell 1 2) 2 3
      [(0, 0)] [(1, 2)] [(0, 0), (1, 2)] rfl rfl rfl).2.2 (1, 2)⟩

/-- C4: the difference combinator `A.not(B)` returns exactly the
elements of `A`'s output that `B`'s output does not contain, in `A`'s
original emission order: it is literally the order-preserving filter of
`A`'s output, a sublist of it (no reordering, no deduplication), whose
members are exactly those of `A`'s output not occurring in `B`'s. -/
theorem not_cells_filter (A B : Obj) (cr cc : Nat)
    (la lb u : List (Nat × Nat))
    (hA : A.cells cr cc = some la) (hB : B.cells cr cc = some lb)
    (hu : (Obj.not A B).cells cr cc = some u) :
    u = la.filter (fun z => !(lb.contains z)) ∧ u.Sublist la ∧
      ∀ z : Nat × Nat, z ∈ u ↔ z ∈ la ∧ z ∉ lb := by
  simp only [Obj.cells] at hu
  rw [hA, hB] at hu
  simp at hu
  subst hu
  refine ⟨rfl, List.filter_sublist la, ?_⟩
  intro z
  rw [remove_cells, List.mem_filter]
  simp

/-- Witness for C4 at `FirstRow.not(Cell(0,0))` on a 2×3 grid
(mirroring the repository's `object_not_test`). -/
theorem not_cells_filter_witness :
    [((0 : Nat), (1 : Nat)), (0, 2)] =
        List.filter (fun z => !(List.contains [((0 : Nat), (0 : Nat))] z))
          [((0 : Nat), (0 : Nat)), (0, 1), (0, 2)] ∧
      List.Sublist [((0 : Nat), (1 : Nat)), (0, 2)]
        [((0 : Nat), (0 : Nat)), (0, 1), (0, 2)] :=
  ⟨(not_cells_filter Obj.firstRow (.cell 0 0) 2 3
      [(0, 0), (0, 1), (0, 2)] [(0, 0)] [(0, 1), (0, 2)] rfl rfl rfl).1,
   (not_cells_filter Obj.firstRow (.cell 0 0) 2 3
      [(0, 0), (0, 1), (0, 2)] [(0, 0)] [(0, 1), (0, 2)] rfl rfl rfl).2.1⟩

/-- C9 counterexample: `Columns(..)` emits column-major, duplicate-free
output `[(0,0),(1,0),(0,1),(1,1),(0,2),(1,2)]` on a 2×3 grid, so
deduplicating it leaves it unchanged; but `A.and(A)` returns the
canonically reordered `[(0,0),(0,1),(0,2),(1,0),(1,1),(1,2)]`, which is
a different list. -/
theorem and_self_reorders :
    (Obj.columns .unbounded .unbounded).cells 2 3 =
        some [(0, 0), (1, 0), (0, 1), (1, 1), (0, 2), (1, 2)] ∧
      List.Nodup [((0 : Nat), (0 : Nat)), (1, 0), (0, 1), (1, 1), (0, 2), (1, 2)] ∧
      (Obj.and (Obj.columns .unbounded .unbounded)
          (Obj.columns .unbounded .unbounded)).cells 2 3 =
        some [(0, 0), (0, 1), (0, 2), (1, 0), (1, 1), (1, 2)] ∧
      [((0 : Nat), (0 : Nat)), (0, 1), (0, 2), (1, 0), (1, 1), (1, 2)] ≠
        [((0 : Nat), (0 : Nat)), (1, 0), (0, 1), (1, 1), (0, 2), (1, 2)] :=
  ⟨rfl, by decide, rfl, by decide⟩

/-- C9 (amended): `A.and(A)` is idempotent up to the union combinator's
canonical ordering: its output is the ascending-lexicographic,
duplicate-free reordering of `A`'s output (the same member set, each
member once), not `A`'s output with duplicates removed in place. -/
theorem and_self_cells (A : Obj) (cr cc : Nat) (la u : List (Nat × Nat))
    (hA : A.cells cr cc = some la)
    (hu : (Obj.and A A).cells cr cc = some u) :
    Ascending u ∧ u.Nodup ∧ ∀ z : Nat × Nat, z ∈ u ↔ z ∈ la := by
  simp only [Obj.cells] at hu
  rw [hA] at hu
  simp at hu
  subst hu
  refine ⟨combine_cells_ascending la la, (combine_cells_ascending la la).nodup, ?_⟩
  intro z
  rw [mem_combine_cells]
  tauto

/-- Witness for C9's amended theorem at `FirstRow.and(FirstRow)` on a
1×3 grid. -/
theorem and_self_cells_witness :
    Ascending [((0 : Nat), (0 : Nat)), (0, 1), (0, 2)] ∧
      (((0 : Nat), (1 : Nat)) ∈ [((0 : Nat), (0 : Nat)), (0, 1), (0, 2)] ↔
        ((0 : Nat), (1 : Nat)) ∈ [((0 : Nat), (0 : Nat)), (0, 1), (0, 2)]) :=
  ⟨(and_self_cells Obj.firstRow 1 3 [(0, 0), (0, 1), (0, 2)]
      [(0, 0), (0, 1), (0, 2)] rfl rfl).1,
   (and_self_cells Obj.firstRow 1 3 [(0, 0), (0, 1), (0, 2)]
      [(0, 0), (0, 1), (0, 2)] rfl rfl).2.2 (0, 1)⟩

/-- C6 counterexample: `Segment` is in the catalog and is not the
single-cell selector, yet `Segment::new(1..2, 1..2).cells(0, 0)` is the
non-empty `[(1, 1)]`: the resolver clamps neither bounded range to the
zero extent. -/
theorem segment_nonempty_zero_extent :
    (Obj.segment (.included 1) (.excluded 2) (.included 1) (.excluded 2)).cells 0 0 =
        some [(1, 1)] ∧
      ([((1 : Nat), (1 : Nat))] : List (Nat × Nat)) ≠ [] :=
  ⟨rfl, by decide⟩

/-- C6 (amended): with valid (never-excluded) start bounds no selector
panics at extent `(0, 0)`; every catalog selector except `Cell` (which
returns its fixed coordinate) and except `Segment` with bounded
non-degenerate ranges (and `Combination`s of such / of `Cell`) returns
the empty sequence at `(0, 0)` — in particular `Frame`, `LastRow`,
`LastColumn`, `LastRowOffset` and `LastColumnOffset` return empty with
no index underflow. -/
theorem cells_zero_extent :
    (∀ o : Obj, validObj o = true → (Obj.cells o 0 0).isSome) ∧
    Obj.cells .frame 0 0 = some [] ∧
    Obj.cells .firstRow 0 0 = some [] ∧
    Obj.cells .lastRow 0 0 = some [] ∧
    (∀ i : Nat, Obj.cells (.row i) 0 0 = some []) ∧
    (∀ k : Nat, Obj.cells (.lastRowOffset k) 0 0 = some []) ∧
    (∀ s e : Bnd, startOk s = true → Obj.cells (.rows s e) 0 0 = some []) ∧
    (∀ s e : Bnd, startOk s = true → Obj.cells (.columns s e) 0 0 = some []) ∧
    Obj.cells .firstColumn 0 0 = some [] ∧
    Obj.cells .lastColumn 0 0 = some [] ∧
    (∀ j : Nat, Obj.cells (.column j) 0 0 = some []) ∧
    (∀ k : Nat, Obj.cells (.lastColumnOffset k) 0 0 = some []) ∧
    (∀ r c : Nat, Obj.cells (.cell r c) 0 0 = some [(r, c)]) := by
  refine ⟨fun o h => cells_isSome o 0 0 h, rfl, rfl, rfl, ?_, ?_, ?_, ?_,
    rfl, rfl, ?_, ?_, fun r c => rfl⟩
  · intro i
    simp [Obj.cells, Nat.zero_le]
  · intro k
    simp [Obj.cells]
  · intro s e h
    cases s <;> cases e <;> simp_all [Obj.cells, bounds_to_usize, startOk, flatten_map_nil]
  · intro s e h
    cases s <;> cases e <;> simp_all [Obj.cells, bounds_to_usize, startOk, flatten_map_nil]
  · intro j
    simp [Obj.cells, Nat.zero_le]
  · intro k
    simp [Obj.cells]

/-- Witness for C6's amended theorem at `Rows::new(1..2)`: a valid
selector neither panics nor emits anything at extent `(0, 0)`. -/
theorem cells_zero_extent_witness :
    (Obj.cells (Obj.rows (Bnd.included 1) (Bnd.excluded 2)) 0 0).isSome ∧
      Obj.cells (Obj.rows (Bnd.included 1) (Bnd.excluded 2)) 0 0 = some [] :=
  ⟨cells_zero_extent.1 (Obj.rows (Bnd.included 1) (Bnd.excluded 2)) rfl,
   cells_zero_extent.2.2.2.2.2.2.1 (Bnd.included 1) (Bnd.excluded 2) rfl⟩

/-- C7 counterexample: `FirstRow` is not extensionally equal to
`Row{index: 0}`: at extent `(0, 1)` the former emits `[(0, 0)]` while
the latter performs the `index >= count_rows` check and returns `[]`. -/
theorem firstRow_ne_row_zero :
    Obj.cells Obj.firstRow 0 1 = some [(0, 0)] ∧
      Obj.cells (Obj.row 0) 0 1 = some [] ∧
      (some [((0 : Nat), (0 : Nat))] : Option (List (Nat × Nat))) ≠ some [] :=
  ⟨rfl, rfl, by decide⟩

/-- C7 (amended): `LastRow` equals `LastRow - 0` and `LastColumn`
equals `LastColumn - 0` at every extent; `FirstRow` equals
`Row{index: 0}` only when `count_rows > 0` and `FirstColumn` equals
`Column(0)` only when `count_columns > 0` (at a zero extent the First
selectors still emit index 0 while the index-based ones return empty);
`Row`/`Column` return empty whenever their index falls outside the
extent. -/
theorem first_last_equiv :
    (∀ cr cc : Nat, Obj.cells .lastRow cr cc = Obj.cells (.lastRowOffset 0) cr cc) ∧
    (∀ cr cc : Nat, Obj.cells .lastColumn cr cc = Obj.cells (.lastColumnOffset 0) cr cc) ∧
    (∀ cr cc : Nat, 0 < cr → Obj.cells .firstRow cr cc = Obj.cells (.row 0) cr cc) ∧
    (∀ cr cc : Nat, 0 < cc → Obj.cells .firstColumn cr cc = Obj.cells (.column 0) cr cc) ∧
    (∀ i cr cc : Nat, cr ≤ i → Obj.cells (.row i) cr cc = some []) ∧
    (∀ j cr cc : Nat, cc ≤ j → Obj.cells (.column j) cr cc = some []) := by
  refine ⟨?_, ?_, ?_, ?_, ?_, ?_⟩
  · intro cr cc
    simp [Obj.cells]
  · intro cr cc
    simp [Obj.cells]
  · intro cr cc h
    simp only [Obj.cells]
    rw [if_neg (by omega)]
  · intro cr cc h
    simp only [Obj.cells]
    rw [if_neg (by omega)]
  · intro i cr cc h
    simp only [Obj.cells]
    rw [if_pos h]
  · intro j cr cc h
    simp only [Obj.cells]
    rw [if_pos h]

/-- Witness for C7's amended theorem: `FirstRow` and `Row{index: 0}`
agree on a 1×2 grid. -/
theorem first_last_equiv_witness :
    Obj.cells Obj.firstRow 1 2 = Obj.cells (Obj.row 0) 1 2 :=
  first_last_equiv.2.2.1 1 2 (by decide)

/-- C8 counterexample: `(LastRow - 0).cells(5, 0)` is empty although
the offset `0` does not exceed the resolved index `5 - 1 = 4` — the
output is also empty whenever the orthogonal extent is zero, so "empty
exactly when the offset exceeds the resolved index" fails. -/
theorem lastRowOffset_empty_despite_offset_in_range :
    Obj.cells (Obj.lastRowOffset 0) 5 0 = some [] ∧
      ¬ ((if (5 : Nat) = 0 then 0 else 5 - 1) < 0) :=
  ⟨rfl, by decide⟩

/-- C8 (amended): the end-relative selectors resolve the last valid
index as `extent - 1` (or `0` for a zero extent), subtract the offset,
and return empty exactly when the offset exceeds that resolved index
*or the orthogonal extent is zero*; when the offset is within range
they emit one full row (column) at the resolved index minus the
offset; in particular against a zero extent with offset `0` one full
row (column) is emitted: `(LastRow - 0).cells(0, c)` is
`[(0,0), …, (0,c-1)]` and `(LastColumn - 0).cells(r, 0)` is
`[(0,0), …, (r-1,0)]`. -/
theorem end_relative_offset_spec :
    (∀ off cr cc : Nat, Obj.cells (.lastRowOffset off) cr cc = some [] ↔
      ((if cr = 0 then 0 else cr - 1) < off ∨ cc = 0)) ∧
    (∀ off cr cc : Nat, off ≤ (if cr = 0 then 0 else cr - 1) →
      Obj.cells (.lastRowOffset off) cr cc =
        some ((List.range cc).map
          (fun c => ((if cr = 0 then 0 else cr - 1) - off, c)))) ∧
    (∀ c : Nat, 0 < c → Obj.cells (.lastRowOffset 0) 0 c =
      some ((List.range c).map (fun col => ((0 : Nat), col)))) ∧
    (∀ off cr cc : Nat, Obj.cells (.lastColumnOffset off) cr cc = some [] ↔
      (cc - 1 < off ∨ cr = 0)) ∧
    (∀ off cr cc : Nat, off ≤ cc - 1 →
      Obj.cells (.lastColumnOffset off) cr cc =
        some ((List.range cr).map (fun r => (r, cc - 1 - off)))) ∧
    (∀ r : Nat, 0 < r → Obj.cells (.lastColumnOffset 0) r 0 =
      some ((List.range r).map (fun row => (row, (0 : Nat))))) := by
  refine ⟨?_, ?_, ?_, ?_, ?_, ?_⟩
  · intro off cr cc
    simp only [Obj.cells]
    by_cases h : (if cr = 0 then 0 else cr - 1) < off
    · rw [if_pos h]
      simp [h]
    · rw [if_neg h]
      simp only [Option.some.injEq, List.map_eq_nil_iff, List.range_eq_nil]
      tauto
  · intro off cr cc h
    simp only [Obj.cells]
    rw [if_neg (by omega)]
  · intro c _
    simp [Obj.cells]
  · intro off cr cc
    simp only [Obj.cells]
    by_cases h : cc - 1 < off
    · rw [if_pos h]
      simp [h]
    · rw [if_neg h]
      simp only [Option.some.injEq, List.map_eq_nil_iff, List.range_eq_nil]
      tauto
  · intro off cr cc h
    simp only [Obj.cells]
    rw [if_neg (by omega)]
  · intro r _
    simp [Obj.cells]

/-- Witness for C8's amended theorem: `(LastRow - 1).cells(5, 2)`
emits row `3` in full (mirroring the repository's `last_row_sub_test`). -/
theorem end_relative_offset_spec_witness :
    Obj.cells (Obj.lastRowOffset 1) 5 2 =
      some ((List.range 2).map
        (fun c => ((if (5 : Nat) = 0 then 0 else 5 - 1) - 1, c))) :=
  end_relative_offset_spec.2.1 1 5 2 (by decide)

/-- C10: `FirstRow::cells` ignores `count_rows` and
`FirstColumn::cells` ignores `count_columns` (their Rust signatures
bind those parameters to `_`); consequently each still emits its full
line against a zero extent in its own dimension: `FirstRow.cells(0, c)`
is non-empty for `c > 0` and `FirstColumn.cells(r, 0)` is non-empty for
`r > 0`. -/
theorem first_selectors_extent_independent :
    (∀ r r' c : Nat, Obj.cells .firstRow r c = Obj.cells .firstRow r' c) ∧
    (∀ r c c' : Nat, Obj.cells .firstColumn r c = Obj.cells .firstColumn r c') ∧
    (∀ c : Nat, 0 < c → Obj.cells .firstRow 0 c ≠ some []) ∧
    (∀ r : Nat, 0 < r → Obj.cells .firstColumn r 0 ≠ some []) := by
  refine ⟨fun _ _ _ => rfl, fun _ _ _ => rfl, ?_, ?_⟩
  · intro c hc h
    simp only [Obj.cells, Option.some.injEq, List.map_eq_nil_iff,
      List.range_eq_nil] at h
    omega
  · intro r hr h
    simp only [Obj.cells, Option.some.injEq, List.map_eq_nil_iff,
      List.range_eq_nil] at h
    omega

/-- Witness for C10 at a 0×1 grid: `FirstRow` still emits a cell. -/
theorem first_selectors_extent_independent_witness :
    Obj.cells Obj.firstRow 0 1 ≠ some [] :=
  first_selectors_extent_independent.2.2.1 1 (by decide)
